import Mathlib

/-!
Verification development for the `m3georeferencer` repository.

The Python sources are shallowly embedded:
* `read_m3.py` — regex-based header field extraction (`findField`, `findMFO`),
  window validation (`validateWindow`), and the windowed binary decode loop
  (`readBandsLoop`, `readRowsLoop`, `decodeWindow`, `read_window`).
  Bytes are modelled as natural numbers, a file as `List Nat`, and a decoded
  scalar as its byte chunk (the host's native scalar encoding is a bijection
  between scalar values and fixed-width byte chunks, so equality of decoded
  scalars is equality of chunks).
* `utils.py` — `forward_geotransform` over `ℚ` (the claim's inputs and the
  arithmetic involved are exactly representable, so the rational model
  computes the same values as IEEE doubles on these inputs).
* `target_image.py` — `mkTargetImage` models `TargetImage.__post_init__`.
* `georeferencer.py` — `createLedger` models the GCP ledger creation in
  `Georeferencer.__init__`, over an association-list filesystem.
-/

/-! ## Header text scanning (read_m3.py lines 46-63)

The Python code extracts fields with `re.findall(pat, text)[0]` where the
patterns are `bands\s=\s*(\d+)`, `samples\s=\s*(\d+)`, `lines\s=\s*(\d+)`,
`data\stype\s=\s*(\d+)` and `\s*major\sframe\soffsets\s=\s\x7b(\d+),\s\d\x7d`.
Each pattern is a list of atoms (`lit c` for a literal character, `ws` for a
single `\s`), followed by an optional greedy `\s*` run and a greedy `(\d+)`
capture.  `re.findall` scans positions left to right and we keep the first
match, which is what `[0]` selects.  Greedy matching without backtracking is
faithful here: a digit is never whitespace and never `,` or a brace, so the
regex engine's backtracking can never turn a failure into a success for
these patterns.  The leading `\s*` of the offsets pattern can match the
empty string, so it never affects the first captured group and is dropped. -/

deriving instance DecidableEq for Except

def isWs (c : Char) : Bool :=
  c = ' ' || c = '\t' || c = '\n' || c = '\r' || c = '\x0b' || c = '\x0c'

def isDigitC (c : Char) : Bool :=
  c ∈ ['0', '1', '2', '3', '4', '5', '6', '7', '8', '9']

inductive PatChar where
  | lit (c : Char)
  | ws
deriving DecidableEq, Repr

def lits (s : String) : List PatChar := s.toList.map .lit

def matchAtoms : List PatChar → List Char → Option (List Char)
  | [], s => some s
  | _ :: _, [] => none
  | .lit a :: ps, c :: s => if c = a then matchAtoms ps s else none
  | .ws :: ps, c :: s => if isWs c then matchAtoms ps s else none

def skipWs : List Char → List Char
  | [] => []
  | c :: s => if isWs c then skipWs s else c :: s

def takeDigits : List Char → List Char × List Char
  | [] => ([], [])
  | c :: s =>
    if isDigitC c then
      let p := takeDigits s
      (c :: p.1, p.2)
    else ([], c :: s)

/-- Value of a decimal digit string, as Python's `int` computes it. -/
def digitsVal (ds : List Char) : Nat :=
  ds.foldl (fun a c => 10 * a + (c.toNat - '0'.toNat)) 0

def headNonDigit : List Char → Bool
  | [] => true
  | c :: _ => !isDigitC c

/-- Attempt the pattern `atoms` + `\s*` + `(\d+)` at the head of `s`. -/
def tryMatch (pat : List PatChar) (s : List Char) : Option Nat :=
  match matchAtoms pat s with
  | none => none
  | some rest =>
    let ds := (takeDigits (skipWs rest)).1
    if ds = [] then none else some (digitsVal ds)

/-- Scan positions left to right and return the first match, as
`re.findall(...)[0]` does. -/
def scanFirst (m : List Char → Option Nat) : List Char → Option Nat
  | [] => none
  | c :: rest =>
    match m (c :: rest) with
    | some v => some v
    | none => scanFirst m rest

def findField (pat : List PatChar) (s : List Char) : Option Nat :=
  scanFirst (tryMatch pat) s

def bandsPat : List PatChar := lits "bands" ++ [.ws, .lit '=']

def samplesPat : List PatChar := lits "samples" ++ [.ws, .lit '=']

def linesPat : List PatChar := lits "lines" ++ [.ws, .lit '=']

def dataTypePat : List PatChar := lits "data" ++ [.ws] ++ lits "type" ++ [.ws, .lit '=']

/-- Atoms of `major\sframe\soffsets\s=\s\x7b` (everything before the capture). -/
def mfoPat : List PatChar :=
  lits "major" ++ [.ws] ++ lits "frame" ++ [.ws] ++ lits "offsets" ++
    [.ws, .lit '=', .ws, .lit '\x7b']

/-- Attempt `major\sframe\soffsets\s=\s\x7b(\d+),\s\d\x7d` at the head of `s`. -/
def tryMatchMFO (s : List Char) : Option Nat :=
  match matchAtoms mfoPat s with
  | none => none
  | some rest =>
    let p := takeDigits rest
    if p.1 = [] then none
    else
      match p.2 with
      | c1 :: u :: d :: c2 :: _ =>
        if c1 = ',' && isWs u && isDigitC d && c2 = '\x7d' then
          some (digitsVal p.1)
        else none
      | _ => none

def findMFO (s : List Char) : Option Nat :=
  scanFirst tryMatchMFO s

/-- read_m3.py lines 60-63: `hdrlen = 0` when the offsets pattern is absent,
else the first captured integer. -/
def parseHdrLen (s : List Char) : Nat := (findMFO s).getD 0

/-- The four required fields, `none` when any of them fails to match
(Python raises `IndexError` on `[0]` in that case). -/
def parseHeaderCounts (s : List Char) : Option (Nat × Nat × Nat × Nat) :=
  match findField bandsPat s, findField samplesPat s,
        findField linesPat s, findField dataTypePat s with
  | some b, some sm, some ln, some dt => some (b, sm, ln, dt)
  | _, _, _, _ => none

/-- read_m3.py lines 31-35: `dtype_dict`, giving the byte width of a
supported data-type code. -/
def dtype_dict (code : Nat) : Option Nat :=
  match code with
  | 5 => some 8
  | 4 => some 4
  | 2 => some 2
  | _ => none

/-! ## Geometry, window validation and the binary decode (read_m3.py 17-116) -/

/-- Parsed header geometry, as bound by read_m3.py lines 48-63. -/
structure M3Header where
  nbands : Nat
  ncols : Nat
  nlines : Nat
  nbytes : Nat
  hdrlen : Nat
deriving DecidableEq, Repr

/-- read_m3.py lines 17-28. Fields are Python ints, hence `Int`. -/
structure Window where
  X : Int
  Y : Int
  W : Int
  H : Int
deriving DecidableEq, Repr

/-- read_m3.py line 73: `full_col_bytes = hdrlen + (ncols * nbands * nbytes)`. -/
def fullColBytes (hd : M3Header) : Nat :=
  hd.hdrlen + hd.ncols * hd.nbands * hd.nbytes

/-- read_m3.py line 75: `total_rows = os.path.getsize(img_path) // full_col_bytes`. -/
def totalRows (hd : M3Header) (file_size : Nat) : Nat :=
  file_size / fullColBytes hd

/-- The three distinct `ValueError`s of read_m3.py lines 88-93.  In the
source's (swapped) axis naming, `xBounds` is raised for a row violation and
`yBounds` for a column violation. -/
inductive WindowErr where
  | xBounds
  | yBounds
  | bothBounds
deriving DecidableEq, Repr

def windowErrMsg : WindowErr → String
  | .xBounds => "Window does not fit within X bounds."
  | .yBounds => "Window does not fit within Y bounds."
  | .bothBounds => "Window does not fit within either X or Y bounds."

/-- read_m3.py lines 85-93 ("Validating Window"). -/
def validateWindow (window : Window) (total_rows ncols : Int) : Option WindowErr :=
  let xbounds_chk := window.Y + window.H > total_rows
  let ybounds_chk := window.X + window.W > ncols
  if xbounds_chk ∧ ¬ybounds_chk then some .xBounds
  else if ybounds_chk ∧ ¬xbounds_chk then some .yBounds
  else if xbounds_chk ∧ ybounds_chk then some .bothBounds
  else none

/-- Runtime failures of the decode loop: a negative seek target
(`f.seek` raises `ValueError`), negative output dims (`np.empty` raises),
a buffer whose size is not a multiple of the item size (`np.frombuffer`
raises) and a row of the wrong length (the slice assignment raises). -/
inductive DecodeErr where
  | negDim
  | negSeek
  | badBuffer
  | badShape
deriving DecidableEq, Repr

abbrev Bytes := List Nat

/-- A decoded frame, indexed rows × columns × bands; each scalar is its
byte chunk. -/
abbrev Frame := List (List (List Bytes))

/-- Split a buffer into `k` chunks of `n` bytes, as `np.frombuffer` with an
item size of `n` decodes `k = len // n` scalars. -/
def chunksN (n : Nat) : Nat → Bytes → List Bytes
  | 0, _ => []
  | k + 1, l => l.take n :: chunksN n k (l.drop n)

/-- read_m3.py lines 105-111, the inner band loop.  `pos` is the file
position; `f.read` returns the available bytes and advances the position by
that many; the subsequent `f.seek(byte_index + col_end_buffer)` raises on a
negative target. -/
def readBandsLoop (file : Bytes) (wn nbytes : Nat) (col_end_buffer : Int) :
    Nat → Int → Except DecodeErr (List (List Bytes) × Int)
  | 0, pos => .ok ([], pos)
  | nb + 1, pos =>
    let bindat := (file.drop pos.toNat).take (wn * nbytes)
    let byte_index : Int := pos + bindat.length
    let target : Int := byte_index + col_end_buffer
    if target < 0 then .error .negSeek
    else if bindat.length % nbytes ≠ 0 then .error .badBuffer
    else
      let row := chunksN nbytes (bindat.length / nbytes) bindat
      if row.length ≠ wn then .error .badShape
      else
        match readBandsLoop file wn nbytes col_end_buffer nb target with
        | .error e => .error e
        | .ok (rest, fin) => .ok (row :: rest, fin)

/-- read_m3.py lines 103-111, the outer row loop.  Each iteration seeks to
`col_offset + byte_index` (raising on a negative target) and then runs the
band loop. -/
def readRowsLoop (file : Bytes) (nbands wn nbytes : Nat)
    (col_offset col_end_buffer : Int) :
    Nat → Int → Except DecodeErr (List (List (List Bytes)))
  | 0, _ => .ok []
  | hrem + 1, byte_index =>
    let target : Int := col_offset + byte_index
    if target < 0 then .error .negSeek
    else
      match readBandsLoop file wn nbytes col_end_buffer nbands target with
      | .error e => .error e
      | .ok (bands, fin) =>
        match readRowsLoop file nbands wn nbytes col_offset col_end_buffer hrem fin with
        | .error e => .error e
        | .ok rest => .ok (bands :: rest)

/-- The slice assignment `window_data[i, :, j] = row` lays the per-band rows
out as rows × columns × bands: column `c`, band `j` of an output row is
element `c` of band `j`'s decoded row. -/
def transposeRect (wn : Nat) (rows : List (List Bytes)) : List (List Bytes) :=
  (List.range wn).map fun c => rows.map fun r => r.getD c []

/-- read_m3.py lines 80-111: offsets, the `np.empty` allocation and the
read loop, producing the unmirrored frame. -/
def decodeWindow (file : Bytes) (hd : M3Header) (window : Window) :
    Except DecodeErr Frame :=
  let full_col_bytes : Int := (fullColBytes hd : Nat)
  let col_offset : Int := (hd.hdrlen : Int) + window.X * hd.nbands * hd.nbytes
  let start_byte : Int := window.Y * full_col_bytes
  let col_end_buffer : Int := ((hd.ncols : Int) - (window.X + window.W)) * hd.nbytes
  if window.H < 0 ∨ window.W < 0 then .error .negDim
  else if start_byte < 0 then .error .negSeek
  else
    match readRowsLoop file hd.nbands window.W.toNat hd.nbytes col_offset
        col_end_buffer window.H.toNat start_byte with
    | .error e => .error e
    | .ok rows => .ok (rows.map (transposeRect window.W.toNat))

inductive ReadErr where
  | window (e : WindowErr)
  | decode (e : DecodeErr)
deriving DecidableEq, Repr

/-- read_m3.py lines 73-116 given the parsed header: validation, decode and
the `shape[1] == 320` column mirroring. -/
def read_window (file : Bytes) (hd : M3Header) (window : Window) :
    Except ReadErr Frame :=
  match validateWindow window ((totalRows hd file.length : Nat) : Int) hd.ncols with
  | some e => .error (.window e)
  | none =>
    match decodeWindow file hd window with
    | .error e => .error (.decode e)
    | .ok frame => .ok (if window.W = 320 then frame.map List.reverse else frame)

/-- Element `(r, c, b)` of a frame. -/
def frameGet (fr : Frame) (r c b : Nat) : Bytes :=
  ((fr.getD r []).getD c []).getD b []

/-- Executable check that a read produced a frame of shape exactly
`(h, w, b)`. -/
def checkFrameShape (r : Except ReadErr Frame) (h w b : Nat) : Bool :=
  match r with
  | .error _ => false
  | .ok fr =>
    fr.length = h &&
      fr.all fun row => row.length = w && row.all fun cell => cell.length = b

/-! ## The affine forward transform (utils.py lines 8-15) -/

/-- The 6-coefficient geotransform unpacked by `forward_geotransform`:
`origin_x, pixel_width, _, origin_y, _, pixel_height = geotrans`. -/
structure GeoTransform where
  origin_x : ℚ
  pixel_width : ℚ
  row_skew : ℚ
  origin_y : ℚ
  col_skew : ℚ
  pixel_height : ℚ
deriving DecidableEq, Repr

/-- utils.py lines 8-15. -/
def forward_geotransform (x_pixel y_pixel : ℚ) (geotrans : GeoTransform) : ℚ × ℚ :=
  (geotrans.origin_x + x_pixel * geotrans.pixel_width,
   geotrans.origin_y + y_pixel * geotrans.pixel_height)

/-! ## Target image construction (target_image.py lines 12-77) -/

/-- A constructed `TargetImage` after `__post_init__` resolved the width and
height.  The numpy array is abstracted to its shape. -/
structure TargetImage where
  shape : List Nat
  row_offset : Int
  col_offset : Int
  width : Int
  height : Int
  band : Int
deriving DecidableEq, Repr

/-- The `ValueError`s of `TargetImage.__post_init__`, plus the `IndexError`
that `self.data.shape[1]` raises on an array with fewer than 2 dimensions. -/
inductive TIError where
  | tooManyDims
  | bandFor2D
  | widthTooLarge
  | heightTooLarge
  | indexError
deriving DecidableEq, Repr

/-- target_image.py lines 50-77: `TargetImage.__post_init__` as a fallible
constructor.  Checks run in source order: dimension count, the 2D band
check, then the width block (reading `shape[1]`), then the height block
(reading `shape[0]`). -/
def mkTargetImage (shape : List Nat) (row_offset col_offset width height band : Int) :
    Except TIError TargetImage :=
  if shape.length > 3 then .error .tooManyDims
  else if shape.length = 2 ∧ band > 0 then .error .bandFor2D
  else if shape.length < 2 then .error .indexError
  else if width ≠ -1 ∧ width + col_offset > (shape.getD 1 0 : Int) then
    .error .widthTooLarge
  else
    let w := if width = -1 then (shape.getD 1 0 : Int) else width
    if height ≠ -1 ∧ height + row_offset > (shape.getD 0 0 : Int) then
      .error .heightTooLarge
    else
      let h := if height = -1 then (shape.getD 0 0 : Int) else height
      .ok ⟨shape, row_offset, col_offset, w, h, band⟩

/-! ## GCP ledger creation (georeferencer.py lines 47-61) -/

/-- Python's `Path(p).with_suffix(".gcps")`: in the final path component,
the extension (from the last dot, provided it is not the component's first
character) is replaced by `.gcps`; a component with no extension gets
`.gcps` appended. -/
def withSuffixGcps (path : List Char) : List Char :=
  let rev := path.reverse
  let nameRev := rev.takeWhile (fun c => c ≠ '/')
  let dirRev := rev.dropWhile (fun c => c ≠ '/')
  let stem :=
    match nameRev.dropWhile (fun c => c ≠ '.') with
    | [] => nameRev.reverse
    | _ :: tl => if tl = [] then nameRev.reverse else tl.reverse
  dirRev.reverse ++ stem ++ (".gcps").toList

/-- A filesystem as an association list from paths to file contents. -/
abbrev FS := List (List Char × String)

def fsLookup (fs : FS) (p : List Char) : Option String :=
  (fs.find? (fun e => e.1 = p)).map (fun e => e.2)

def fsWrite (fs : FS) (p : List Char) (content : String) : FS :=
  (p, content) :: fs.filter (fun e => e.1 ≠ p)

/-- The target-image metadata written by `Georeferencer.__init__`. -/
structure TIMeta where
  src_path : String
  row_offset : Int
  col_offset : Int
  height : Int
  width : Int
  band : Int
deriving DecidableEq, Repr

/-- georeferencer.py lines 54-61: the six metadata lines and the column
header written into a freshly created ledger. -/
def ledgerHeader (ti : TIMeta) : String :=
  "Source for Target Image: " ++ ti.src_path ++ "\n" ++
  "Row Offset: " ++ toString ti.row_offset ++ "\n" ++
  "Column Offset: " ++ toString ti.col_offset ++ "\n" ++
  "Target Image Height: " ++ toString ti.height ++ "\n" ++
  "Target Image Width: " ++ toString ti.width ++ "\n" ++
  "Target Image Band Used: " ++ toString ti.band ++ "\n" ++
  "index, pixel_row, pixel_col, map_x, map_y, ID\n"

inductive LedgerErr where
  | fileExists
deriving DecidableEq, Repr

/-- georeferencer.py lines 47-61: force the `.gcps` suffix, fail if the
resulting path exists and overwriting was not requested, otherwise open
with mode `"w"` (truncating) and write the metadata header.  Returns the
updated filesystem and the ledger path. -/
def createLedger (fs : FS) (save_path : List Char) (overwrite_save : Bool)
    (ti : TIMeta) : Except LedgerErr (FS × List Char) :=
  let p := withSuffixGcps save_path
  if (fsLookup fs p).isSome ∧ ¬overwrite_save then .error .fileExists
  else .ok (fsWrite fs p (ledgerHeader ti), p)

/-! ## The spec's binary raster layout -/

/-- Modelled from the spec: the "Binary raster file" layout of the external
interfaces section (the repository contains no writer for this format).
A file is a row-major sequence of `nlines` rows; each row is `hdrlen`
padding bytes followed by `nbands` contiguous segments of `ncols` scalars
each, where `vals line band col` is the byte chunk of the scalar at that
position. -/
def specLayoutFile (hd : M3Header) (vals : Nat → Nat → Nat → Bytes) : Bytes :=
  (List.range hd.nlines).flatMap fun line =>
    List.replicate hd.hdrlen 0 ++
      ((List.range hd.nbands).flatMap fun band =>
        (List.range hd.ncols).flatMap fun col => vals line band col)

/-! ## Scanner lemmas -/

theorem scanFirst_append (m : List Char → Option Nat) (p s : List Char)
    (hp : ∀ i < p.length, m ((p ++ s).drop i) = none) :
    scanFirst m (p ++ s) = scanFirst m s := by
  induction p with
  | nil => rfl
  | cons c p ih =>
    have h0 : m (c :: (p ++ s)) = none := by
      have := hp 0 (by simp)
      simpa using this
    simp only [List.cons_append, scanFirst, List.append_eq, h0]
    exact ih fun i hi => by
      have := hp (i + 1) (by simpa using Nat.succ_lt_succ hi)
      simpa using this

theorem scanFirst_cons_some (m : List Char → Option Nat) (s : List Char) (v : Nat)
    (hne : s ≠ []) (h : m s = some v) : scanFirst m s = some v := by
  cases s with
  | nil => exact absurd rfl hne
  | cons c rest => simp only [scanFirst, h]

theorem scanFirst_eq_none (m : List Char → Option Nat) (s : List Char)
    (h : ∀ i < s.length, m (s.drop i) = none) : scanFirst m s = none := by
  induction s with
  | nil => rfl
  | cons c rest ih =>
    have h0 := h 0 (by simp)
    simp only [List.drop_zero] at h0
    simp only [scanFirst, h0]
    exact ih fun i hi => by
      have := h (i + 1) (Nat.succ_lt_succ hi)
      simpa using this

theorem not_ws_of_digit (c : Char) (h : isDigitC c = true) : isWs c = false := by
  have hc : c ∈ ['0', '1', '2', '3', '4', '5', '6', '7', '8', '9'] :=
    of_decide_eq_true h
  fin_cases hc <;> rfl

theorem skipWs_append_ws (u l : List Char) (hu : u.all isWs = true) :
    skipWs (u ++ l) = skipWs l := by
  induction u with
  | nil => rfl
  | cons c u ih =>
    simp only [List.all_cons, Bool.and_eq_true] at hu
    simp only [List.cons_append, skipWs, hu.1, if_true]
    exact ih hu.2

theorem skipWs_cons_nonws (c : Char) (l : List Char) (h : isWs c = false) :
    skipWs (c :: l) = c :: l := by
  simp [skipWs, h]

theorem takeDigits_append (ds rest : List Char) (hds : ds.all isDigitC = true)
    (hrest : headNonDigit rest = true) : takeDigits (ds ++ rest) = (ds, rest) := by
  induction ds with
  | nil =>
    cases rest with
    | nil => rfl
    | cons c rs =>
      simp only [headNonDigit, Bool.not_eq_true'] at hrest
      simp [takeDigits, hrest]
  | cons c ds ih =>
    simp only [List.all_cons, Bool.and_eq_true] at hds
    simp [takeDigits, hds.1, ih hds.2]

theorem tryMatch_hit (pat : List PatChar) (k u ds rest : List Char)
    (hk : ∀ t, matchAtoms pat (k ++ t) = some t)
    (hu : u.all isWs = true) (hds : ds ≠ []) (hdig : ds.all isDigitC = true)
    (hrest : headNonDigit rest = true) :
    tryMatch pat (k ++ (u ++ (ds ++ rest))) = some (digitsVal ds) := by
  unfold tryMatch
  rw [hk]
  have h1 : skipWs (u ++ (ds ++ rest)) = ds ++ rest := by
    rw [skipWs_append_ws u _ hu]
    cases ds with
    | nil => exact absurd rfl hds
    | cons d ds =>
      refine skipWs_cons_nonws _ _ (not_ws_of_digit d ?_)
      simp only [List.all_cons, Bool.and_eq_true] at hdig
      exact hdig.1
  simp only [h1, takeDigits_append ds rest hdig hrest]
  simp [hds]

/-! ## Claims C5 and C6: header field extraction -/

/-- Claim C5 (corrected), counterexample: inserting one extra space before
the `=` of the `bands` line changes the parse from `some (5, 4, 3, 2)` to
`none`, because the patterns require exactly one whitespace character
before `=`. -/
theorem parseHeaderCounts_ws_before_eq :
    parseHeaderCounts ("bands = 5\nsamples = 4\nlines = 3\ndata type = 2").toList =
      some (5, 4, 3, 2) ∧
    parseHeaderCounts ("bands  = 5\nsamples = 4\nlines = 3\ndata type = 2").toList =
      none ∧
    parseHeaderCounts ("bands  = 5\nsamples = 4\nlines = 3\ndata type = 2").toList ≠
      parseHeaderCounts ("bands = 5\nsamples = 4\nlines = 3\ndata type = 2").toList := by
  decide

/-- Claim C5 (amended): field extraction tolerates an arbitrary whitespace
run `u` (including none) between the `=` and the digits, and is
order-independent — the field may sit after an arbitrary prefix `p` (hence
at any position among the other lines) as long as no earlier position
matches; the single mandatory whitespace before `=` lives inside the
spelled key `k` of the pattern. -/
theorem findField_whitespace_and_order (pat : List PatChar) (k p u ds rest : List Char)
    (hk : ∀ t, matchAtoms pat (k ++ t) = some t)
    (hu : u.all isWs = true) (hds : ds ≠ []) (hdig : ds.all isDigitC = true)
    (hrest : headNonDigit rest = true)
    (hp : ∀ i < p.length, tryMatch pat ((p ++ (k ++ (u ++ (ds ++ rest)))).drop i) = none) :
    findField pat (p ++ (k ++ (u ++ (ds ++ rest)))) = some (digitsVal ds) := by
  unfold findField
  rw [scanFirst_append _ _ _ hp]
  refine scanFirst_cons_some _ _ _ ?_ (tryMatch_hit pat k u ds rest hk hu hds hdig hrest)
  cases ds with
  | nil => exact absurd rfl hds
  | cons a l => simp

theorem findField_whitespace_and_order_witness :
    ([' ', ' ', ' '].all isWs = true) ∧
    (("57").toList ≠ []) ∧ (("57").toList.all isDigitC = true) ∧
    (headNonDigit ("\nlines = 3").toList = true) ∧
    findField bandsPat
        (("samples = 4\n").toList ++ (("bands =").toList ++
          ([' ', ' ', ' '] ++ (("57").toList ++ ("\nlines = 3").toList)))) =
      some (digitsVal ("57").toList) :=
  ⟨by decide, by decide, by decide, by decide,
   findField_whitespace_and_order bandsPat ("bands =").toList ("samples = 4\n").toList
     [' ', ' ', ' '] ("57").toList ("\nlines = 3").toList (fun t => rfl)
     (by decide) (by decide) (by decide) (by decide) (by decide)⟩

/-- The concrete spelling of the offsets pattern up to the opening brace. -/
def mfoKey : List Char := ("major frame offsets = \x7b").toList

theorem matchAtoms_mfoKey (t : List Char) : matchAtoms mfoPat (mfoKey ++ t) = some t :=
  rfl

theorem tryMatchMFO_hit (ds rest : List Char) (u d : Char)
    (hds : ds ≠ []) (hdig : ds.all isDigitC = true) (hu : isWs u = true)
    (hd : isDigitC d = true) :
    tryMatchMFO (mfoKey ++ (ds ++ (',' :: u :: d :: '\x7d' :: rest))) =
      some (digitsVal ds) := by
  have ht : takeDigits (ds ++ (',' :: u :: d :: '\x7d' :: rest)) =
      (ds, ',' :: u :: d :: '\x7d' :: rest) :=
    takeDigits_append ds _ hdig (by simp [headNonDigit, isDigitC])
  simp only [tryMatchMFO, matchAtoms_mfoKey, ht]
  simp [hds, hu, hd]

/-- Claim C6 (amended): when no position of the text matches the offsets
pattern, the per-line header length defaults to `0`; when the text contains
`major frame offsets = \x7b<digits>,<ws><single digit>\x7d` at a position
with no earlier match, the first captured integer becomes the header
length.  (The source regex `\x7b(\d+),\s\d\x7d` only accepts a single
digit for the second integer.) -/
theorem parseHdrLen_optional_offsets :
    (∀ s : List Char, (∀ i < s.length, tryMatchMFO (s.drop i) = none) →
        parseHdrLen s = 0) ∧
    (∀ (p ds rest : List Char) (u d : Char),
        ds ≠ [] → ds.all isDigitC = true → isWs u = true → isDigitC d = true →
        (∀ i < p.length,
          tryMatchMFO
              ((p ++ (mfoKey ++ (ds ++ (',' :: u :: d :: '\x7d' :: rest)))).drop i) =
            none) →
        parseHdrLen (p ++ (mfoKey ++ (ds ++ (',' :: u :: d :: '\x7d' :: rest)))) =
          digitsVal ds) := by
  constructor
  · intro s h
    unfold parseHdrLen findMFO
    rw [scanFirst_eq_none _ _ h]
    rfl
  · intro p ds rest u d hds hdig hu hd hp
    unfold parseHdrLen findMFO
    rw [scanFirst_append _ _ _ hp,
      scanFirst_cons_some _ _ _ (by simp [mfoKey]) (tryMatchMFO_hit ds rest u d hds hdig hu hd)]
    rfl

/-- Claim C6 (corrected), counterexample: the line
`major frame offsets = \x7b5, 12\x7d` has a two-digit second integer, so the
pattern does not match and the header length is `0`, not the first captured
integer `5`. -/
theorem parseHdrLen_two_digit_counterexample :
    parseHdrLen ("major frame offsets = \x7b5, 12\x7d").toList = 0 ∧
    parseHdrLen ("major frame offsets = \x7b5, 12\x7d").toList ≠ 5 := by
  decide

theorem parseHdrLen_optional_offsets_witness :
    parseHdrLen ("bands = 5").toList = 0 ∧
    parseHdrLen (("lines = 3\n").toList ++ (mfoKey ++ (("1280").toList ++
        (',' :: ' ' :: '0' :: '\x7d' :: ("\n").toList)))) = digitsVal ("1280").toList :=
  ⟨parseHdrLen_optional_offsets.1 _ (by decide),
   parseHdrLen_optional_offsets.2 ("lines = 3\n").toList ("1280").toList ("\n").toList
     ' ' '0' (by decide) (by decide) (by decide) (by decide) (by decide)⟩

/-! ## Claim C7: the forward geotransform -/

/-- Claim C7: `forward_geotransform` is a pure function computing
`map_x = origin_x + pixel_x * pixel_width` and
`map_y = origin_y + pixel_y * pixel_height`, ignoring both skew
coefficients, with the two concrete evaluations of the spec. -/
theorem forward_geotransform_spec :
    (∀ (x y : ℚ) (g : GeoTransform),
        forward_geotransform x y g =
          (g.origin_x + x * g.pixel_width, g.origin_y + y * g.pixel_height)) ∧
    (∀ (x y : ℚ) (g : GeoTransform) (rs cs : ℚ),
        forward_geotransform x y { g with row_skew := rs, col_skew := cs } =
          forward_geotransform x y g) ∧
    forward_geotransform 0 0 ⟨100, 2, 0, 50, 0, -2⟩ = (100, 50) ∧
    forward_geotransform 10 5 ⟨100, 2, 0, 50, 0, -2⟩ = (120, 40) := by
  refine ⟨fun x y g => rfl, fun x y g rs cs => rfl, ?_, ?_⟩ <;>
    simp only [forward_geotransform, Prod.mk.injEq] <;> norm_num

/-! ## Claim C3: the three window-error variants -/

/-- Claim C3: a window violating only the row bound produces the first
variant, violating only the column bound the second, violating both the
third; the three variants (and their messages) are pairwise distinct. -/
theorem validateWindow_variants (window : Window) (total_rows ncols : Int) :
    (window.Y + window.H > total_rows → window.X + window.W ≤ ncols →
        validateWindow window total_rows ncols = some .xBounds) ∧
    (window.X + window.W > ncols → window.Y + window.H ≤ total_rows →
        validateWindow window total_rows ncols = some .yBounds) ∧
    (window.Y + window.H > total_rows → window.X + window.W > ncols →
        validateWindow window total_rows ncols = some .bothBounds) ∧
    (WindowErr.xBounds ≠ WindowErr.yBounds ∧ WindowErr.xBounds ≠ WindowErr.bothBounds ∧
      WindowErr.yBounds ≠ WindowErr.bothBounds) ∧
    (windowErrMsg .xBounds ≠ windowErrMsg .yBounds ∧
      windowErrMsg .xBounds ≠ windowErrMsg .bothBounds ∧
      windowErrMsg .yBounds ≠ windowErrMsg .bothBounds) := by
  refine ⟨?_, ?_, ?_, by decide, by decide⟩
  · intro h1 h2
    have h2' : ¬(window.X + window.W > ncols) := not_lt.mpr h2
    simp [validateWindow, h1, h2']
  · intro h1 h2
    have h2' : ¬(window.Y + window.H > total_rows) := not_lt.mpr h2
    simp [validateWindow, h1, h2']
  · intro h1 h2
    simp [validateWindow, h1, h2]

theorem validateWindow_variants_witness :
    validateWindow ⟨0, 995, 304, 10⟩ 1000 304 = some .xBounds ∧
    validateWindow ⟨300, 0, 10, 1⟩ 1000 304 = some .yBounds ∧
    validateWindow ⟨300, 995, 10, 10⟩ 1000 304 = some .bothBounds :=
  ⟨(validateWindow_variants ⟨0, 995, 304, 10⟩ 1000 304).1 (by decide) (by decide),
   (validateWindow_variants ⟨300, 0, 10, 1⟩ 1000 304).2.1 (by decide) (by decide),
   (validateWindow_variants ⟨300, 995, 10, 10⟩ 1000 304).2.2.1 (by decide) (by decide)⟩

/-! ## Claim C10: validation checks only the two upper bounds -/

/-- Claim C10: validation passes exactly when `y + h ≤ total_row_count` and
`x + w ≤ sample_count` — no lower-bound or positivity check — and whenever
it passes, `read_window` proceeds to the decode loop. -/
theorem validateWindow_no_lower_bounds (file : Bytes) (hd : M3Header) (window : Window) :
    (validateWindow window ((totalRows hd file.length : Nat) : Int) hd.ncols = none ↔
      window.Y + window.H ≤ ((totalRows hd file.length : Nat) : Int) ∧
        window.X + window.W ≤ (hd.ncols : Int)) ∧
    (validateWindow window ((totalRows hd file.length : Nat) : Int) hd.ncols = none →
      read_window file hd window =
        match decodeWindow file hd window with
        | .error e => .error (.decode e)
        | .ok frame => .ok (if window.W = 320 then frame.map List.reverse else frame)) := by
  constructor
  · simp only [validateWindow]
    split_ifs with h1 h2 h3 <;> simp <;> omega
  · intro h
    unfold read_window
    rw [h]

theorem validateWindow_no_lower_bounds_witness :
    validateWindow ⟨-2, -3, 1, 2⟩
        ((totalRows ⟨2, 2, 1, 1, 0⟩ ([10, 11, 20, 21] : Bytes).length : Nat) : Int)
        (⟨2, 2, 1, 1, 0⟩ : M3Header).ncols = none ∧
    read_window [10, 11, 20, 21] ⟨2, 2, 1, 1, 0⟩ ⟨-2, -3, 1, 2⟩ =
      .error (.decode .negSeek) :=
  ⟨(validateWindow_no_lower_bounds [10, 11, 20, 21] ⟨2, 2, 1, 1, 0⟩ ⟨-2, -3, 1, 2⟩).1.mpr
      (by decide),
   ((validateWindow_no_lower_bounds [10, 11, 20, 21] ⟨2, 2, 1, 1, 0⟩ ⟨-2, -3, 1, 2⟩).2
      (by decide)).trans (by decide)⟩

/-! ## Claim C8: target-image band validation -/

/-- Claim C8 (corrected), counterexample: a 2D array with the non-zero band
index `-1` does not fail — `__post_init__` only rejects `band > 0` — so
construction succeeds where the claim requires the invalid-band error. -/
theorem mkTargetImage_negative_band_counterexample :
    mkTargetImage [4, 5] 0 0 (-1) (-1) (-1) = .ok ⟨[4, 5], 0, 0, 5, 4, -1⟩ ∧
    mkTargetImage [4, 5] 0 0 (-1) (-1) (-1) ≠ .error .bandFor2D := by
  decide

/-- Claim C8 (amended): a 2D source array with a positive band index fails
with the invalid-band error, and a 3D array with a band index valid for the
array succeeds. -/
theorem mkTargetImage_band_check :
    (∀ (d0 d1 : Nat) (band : Int), 0 < band →
        mkTargetImage [d0, d1] 0 0 (-1) (-1) band = .error .bandFor2D) ∧
    (∀ (d0 d1 d2 : Nat) (band : Int), 0 ≤ band → band < (d2 : Int) →
        mkTargetImage [d0, d1, d2] 0 0 (-1) (-1) band =
          .ok ⟨[d0, d1, d2], 0, 0, (d1 : Int), (d0 : Int), band⟩) := by
  constructor
  · intro d0 d1 band hb
    simp [mkTargetImage, hb]
  · intro d0 d1 d2 band _ _
    simp [mkTargetImage]

theorem mkTargetImage_band_check_witness :
    mkTargetImage [4, 5] 0 0 (-1) (-1) 1 = .error .bandFor2D ∧
    mkTargetImage [4, 5, 6] 0 0 (-1) (-1) 2 = .ok ⟨[4, 5, 6], 0, 0, 5, 4, 2⟩ :=
  ⟨mkTargetImage_band_check.1 4 5 1 (by decide),
   mkTargetImage_band_check.2 4 5 6 2 (by decide) (by decide)⟩

/-! ## Claim C9: ledger creation -/

/-- Claim C9: the ledger path's extension is forced to `.gcps` before the
existence check; creation at an existing (suffixed) path without overwrite
fails with the existing-path error; with overwrite (or at a fresh path) it
succeeds, and the resulting file holds exactly the fresh metadata header
regardless of any previous content. -/
theorem createLedger_spec (fs : FS) (save_path : List Char) (ti : TIMeta) :
    (∀ old, fsLookup fs (withSuffixGcps save_path) = some old →
        createLedger fs save_path false ti = .error .fileExists) ∧
    (fsLookup fs (withSuffixGcps save_path) = none →
        createLedger fs save_path false ti =
          .ok (fsWrite fs (withSuffixGcps save_path) (ledgerHeader ti),
            withSuffixGcps save_path)) ∧
    (createLedger fs save_path true ti =
        .ok (fsWrite fs (withSuffixGcps save_path) (ledgerHeader ti),
          withSuffixGcps save_path)) ∧
    fsLookup (fsWrite fs (withSuffixGcps save_path) (ledgerHeader ti))
        (withSuffixGcps save_path) = some (ledgerHeader ti) := by
  refine ⟨?_, ?_, ?_, ?_⟩
  · intro old h
    simp [createLedger, h]
  · intro h
    simp [createLedger, h]
  · simp [createLedger]
  · simp [fsLookup, fsWrite]

theorem createLedger_spec_witness :
    createLedger [(("a/b.gcps").toList, "old")] ("a/b.txt").toList false
        ⟨"s.img", 0, 0, 3, 4, 0⟩ = .error .fileExists ∧
    createLedger [(("a/b.gcps").toList, "old")] ("a/b.txt").toList true
        ⟨"s.img", 0, 0, 3, 4, 0⟩ =
      .ok (fsWrite [(("a/b.gcps").toList, "old")] (withSuffixGcps ("a/b.txt").toList)
            (ledgerHeader ⟨"s.img", 0, 0, 3, 4, 0⟩),
          withSuffixGcps ("a/b.txt").toList) ∧
    fsLookup (fsWrite [(("a/b.gcps").toList, "old")] (withSuffixGcps ("a/b.txt").toList)
          (ledgerHeader ⟨"s.img", 0, 0, 3, 4, 0⟩))
        (withSuffixGcps ("a/b.txt").toList) =
      some (ledgerHeader ⟨"s.img", 0, 0, 3, 4, 0⟩) :=
  ⟨(createLedger_spec _ _ _).1 "old" (by decide),
   (createLedger_spec _ _ _).2.2.1,
   (createLedger_spec _ _ _).2.2.2⟩

/-! ## Claim C1: the seek arithmetic misreads windows with `x > 0` -/

def hdC1 : M3Header := ⟨2, 2, 1, 1, 0⟩

/-- Distinct scalar chunks for each (band, column) position of `hdC1`. -/
def valsC1 (_line band col : Nat) : Bytes := [10 * (band + 1) + col]

/-- Claim C1 (code bug): for the synthetic band-interleaved file of
geometry `hdC1` and the valid window `x=1, y=0, w=1, h=1` (width ≠ 320),
the element at `(0, 0, 0)` should be the file's scalar at line 0, band 0,
column 1 (`valsC1 0 0 1 = [11]`), but `read_window` returns the scalar at
line 0, band 1, column 0 (`valsC1 0 1 0 = [20]`): the per-row seek
`hdrlen + x * band_count * byte_width` multiplies the column offset by the
band count, so every band segment after the first is displaced when
`x > 0`. -/
theorem read_window_band_misread :
    specLayoutFile hdC1 valsC1 = [10, 11, 20, 21] ∧
    read_window (specLayoutFile hdC1 valsC1) hdC1 ⟨1, 0, 1, 1⟩ =
      .ok [[[[20], [21]]]] ∧
    frameGet [[[[20], [21]]]] 0 0 0 = valsC1 0 1 0 ∧
    frameGet [[[[20], [21]]]] 0 0 0 ≠ valsC1 0 0 1 := by
  decide

/-! ## Decode-loop lemmas -/

theorem chunksN_length (n k : Nat) (l : Bytes) : (chunksN n k l).length = k := by
  induction k generalizing l with
  | zero => rfl
  | succ k ih => simp [chunksN, ih]

/-- Within one output row, each full band read advances the position by
`w * nbytes + tail`; when the whole stretch fits in the file, every read is
full and the loop succeeds with `nb` rows of `wn` scalars. -/
theorem readBandsLoop_ok (file : Bytes) (wn nbytes : Nat) (tail : Int)
    (hby : 0 < nbytes) (htail : 0 ≤ tail) :
    ∀ (nb : Nat) (pos : Int), 0 ≤ pos →
      pos + (nb : Int) * (((wn * nbytes : Nat) : Int) + tail) ≤ (file.length : Int) →
      ∃ bands, readBandsLoop file wn nbytes tail nb pos =
          .ok (bands, pos + (nb : Int) * (((wn * nbytes : Nat) : Int) + tail)) ∧
        bands.length = nb ∧ ∀ b ∈ bands, b.length = wn := by
  intro nb
  induction nb with
  | zero =>
    intro pos hpos hfit
    exact ⟨[], by simp [readBandsLoop], rfl, by simp⟩
  | succ nb ih =>
    intro pos hpos hfit
    have hs0 : (0 : Int) ≤ ((wn * nbytes : Nat) : Int) + tail := by
      have := Int.natCast_nonneg (wn * nbytes)
      omega
    have hnbs : (0 : Int) ≤ (nb : Int) * (((wn * nbytes : Nat) : Int) + tail) :=
      mul_nonneg (Int.natCast_nonneg _) hs0
    have hfit2 : pos + (((wn * nbytes : Nat) : Int) + tail) +
        (nb : Int) * (((wn * nbytes : Nat) : Int) + tail) ≤ (file.length : Int) := by
      have h1 : ((nb + 1 : Nat) : Int) * (((wn * nbytes : Nat) : Int) + tail) =
          (((wn * nbytes : Nat) : Int) + tail) +
            (nb : Int) * (((wn * nbytes : Nat) : Int) + tail) := by
        push_cast
        ring
      rw [h1] at hfit
      linarith
    have h2 : pos + ((wn * nbytes : Nat) : Int) ≤ (file.length : Int) := by linarith
    have hread : pos.toNat + wn * nbytes ≤ file.length := by omega
    have hblen : ((file.drop pos.toNat).take (wn * nbytes)).length = wn * nbytes := by
      rw [List.length_take, List.length_drop]
      omega
    obtain ⟨bands, hrec, hbl, hmem⟩ :=
      ih (pos + ((wn * nbytes : Nat) : Int) + tail) (by omega) (by
        have h3 : pos + ((wn * nbytes : Nat) : Int) + tail +
            (nb : Int) * (((wn * nbytes : Nat) : Int) + tail) =
            pos + (((wn * nbytes : Nat) : Int) + tail) +
              (nb : Int) * (((wn * nbytes : Nat) : Int) + tail) := by ring
        rw [h3]
        exact hfit2)
    have hrowlen : (chunksN nbytes wn ((file.drop pos.toNat).take (wn * nbytes))).length = wn :=
      chunksN_length _ _ _
    refine ⟨chunksN nbytes wn ((file.drop pos.toNat).take (wn * nbytes)) :: bands, ?_, ?_, ?_⟩
    · simp only [readBandsLoop, hblen]
      rw [if_neg (by omega : ¬(pos + ((wn * nbytes : Nat) : Int) + tail < 0))]
      rw [if_neg (by simp [Nat.mul_mod_left] : ¬(wn * nbytes % nbytes ≠ 0))]
      rw [Nat.mul_div_cancel _ hby]
      rw [if_neg (by simp [hrowlen] : ¬((chunksN nbytes wn ((file.drop pos.toNat).take (wn * nbytes))).length ≠ wn))]
      simp only [hrec]
      have hfin : pos + ((wn * nbytes : Nat) : Int) + tail +
          (nb : Int) * (((wn * nbytes : Nat) : Int) + tail) =
          pos + ((nb + 1 : Nat) : Int) * (((wn * nbytes : Nat) : Int) + tail) := by
        push_cast
        ring
      rw [hfin]
    · simp [hbl]
    · intro b hb
      rcases List.mem_cons.mp hb with h | h
      · rw [h]
        exact hrowlen
      · exact hmem b h

/-- Each output row's reads advance the position from `byte_index` to
`byte_index + full_col_bytes` provided
`col_offset + nbands * (w * nbytes + tail) = full_col_bytes`; when `hrem`
rows fit in the file, the loop returns `hrem` rows of `nbands` bands of
`wn` scalars each. -/
theorem readRowsLoop_ok (file : Bytes) (nbands wn nbytes : Nat)
    (col_offset tail fcb : Int)
    (hby : 0 < nbytes) (htail : 0 ≤ tail) (hco : 0 ≤ col_offset)
    (hfcb : col_offset + (nbands : Int) * (((wn * nbytes : Nat) : Int) + tail) = fcb) :
    ∀ (hrem : Nat) (byte_index : Int), 0 ≤ byte_index →
      byte_index + (hrem : Int) * fcb ≤ (file.length : Int) →
      ∃ rows, readRowsLoop file nbands wn nbytes col_offset tail hrem byte_index =
          .ok rows ∧
        rows.length = hrem ∧
        ∀ row ∈ rows, row.length = nbands ∧ ∀ b ∈ row, b.length = wn := by
  have hs0 : (0 : Int) ≤ ((wn * nbytes : Nat) : Int) + tail := by
    have := Int.natCast_nonneg (wn * nbytes)
    omega
  have hfcb0 : 0 ≤ fcb := by
    rw [← hfcb]
    have := mul_nonneg (Int.natCast_nonneg nbands) hs0
    linarith
  intro hrem
  induction hrem with
  | zero =>
    intro bi hbi hfit
    exact ⟨[], by simp [readRowsLoop], rfl, by simp⟩
  | succ hrem ih =>
    intro bi hbi hfit
    have hsplit : ((hrem + 1 : Nat) : Int) * fcb = fcb + (hrem : Int) * fcb := by
      push_cast
      ring
    rw [hsplit] at hfit
    have hrem0 : (0 : Int) ≤ (hrem : Int) * fcb := mul_nonneg (Int.natCast_nonneg _) hfcb0
    have hfit1 : (col_offset + bi) + (nbands : Int) * (((wn * nbytes : Nat) : Int) + tail) ≤
        (file.length : Int) := by
      have h1 : (col_offset + bi) + (nbands : Int) * (((wn * nbytes : Nat) : Int) + tail) =
          bi + fcb := by
        rw [← hfcb]
        ring
      rw [h1]
      linarith
    obtain ⟨bands, hband, hbl, hbmem⟩ :=
      readBandsLoop_ok file wn nbytes tail hby htail nbands (col_offset + bi)
        (by omega) hfit1
    have hfin : (col_offset + bi) + (nbands : Int) * (((wn * nbytes : Nat) : Int) + tail) =
        bi + fcb := by
      rw [← hfcb]
      ring
    obtain ⟨rows, hrows, hrl, hrmem⟩ := ih (bi + fcb) (by omega) (by linarith)
    refine ⟨bands :: rows, ?_, by simp [hrl], ?_⟩
    · simp only [readRowsLoop]
      rw [if_neg (by omega : ¬(col_offset + bi < 0))]
      simp only [hband, hfin, hrows]
    · intro row hrow
      rcases List.mem_cons.mp hrow with h | h
      · rw [h]
        exact ⟨hbl, hbmem⟩
      · exact hrmem row h

theorem transposeRect_length (wn : Nat) (rows : List (List Bytes)) :
    (transposeRect wn rows).length = wn := by
  simp [transposeRect]

theorem transposeRect_mem (wn : Nat) (rows : List (List Bytes)) :
    ∀ c ∈ transposeRect wn rows, c.length = rows.length := by
  intro c hc
  simp only [transposeRect, List.mem_map] at hc
  obtain ⟨i, _, rfl⟩ := hc
  simp

theorem checkFrameShape_ok (fr : Frame) (h w b : Nat)
    (h1 : fr.length = h) (h2 : ∀ row ∈ fr, row.length = w)
    (h3 : ∀ row ∈ fr, ∀ cell ∈ row, cell.length = b) :
    checkFrameShape (.ok fr) h w b = true := by
  simp only [checkFrameShape, Bool.and_eq_true, List.all_eq_true, decide_eq_true_eq]
  exact ⟨h1, fun row hrow => ⟨h2 row hrow, fun cell hc => h3 row hrow cell hc⟩⟩

/-! ## Claim C2: valid windows decode without error to an (h, w, bands) frame -/

/-- Claim C2: for every parsed header with positive counts and every window
with `x ≥ 0`, `y ≥ 0`, `w > 0`, `h > 0`, `x + w ≤ sample_count` and
`y + h ≤ total_row_count`, `read_window` raises nothing and returns a frame
of shape exactly `(h, w, band_count)` — in particular every read inside the
loop obtains its full `w * nbytes` bytes, never running past the end of the
file. -/
theorem read_window_ok_shape (file : Bytes) (hd : M3Header) (window : Window)
    (_hband : 0 < hd.nbands) (_hcol : 0 < hd.ncols) (_hline : 0 < hd.nlines)
    (hby : 0 < hd.nbytes)
    (hx : 0 ≤ window.X) (hy : 0 ≤ window.Y) (hw : 0 < window.W) (hh : 0 < window.H)
    (hxw : window.X + window.W ≤ (hd.ncols : Int))
    (hyh : window.Y + window.H ≤ ((totalRows hd file.length : Nat) : Int)) :
    checkFrameShape (read_window file hd window) window.H.toNat window.W.toNat
      hd.nbands = true := by
  have hval : validateWindow window ((totalRows hd file.length : Nat) : Int) hd.ncols =
      none := by
    simp only [validateWindow]
    split_ifs with h1 h2 h3
    · exact absurd h1.1 (by omega)
    · exact absurd h2.1 (by omega)
    · exact absurd h3.1 (by omega)
    · rfl
  have htail : (0 : Int) ≤ ((hd.ncols : Int) - (window.X + window.W)) * hd.nbytes :=
    mul_nonneg (by omega) (Int.natCast_nonneg _)
  have hco : (0 : Int) ≤ (hd.hdrlen : Int) + window.X * hd.nbands * hd.nbytes := by
    have h1 := mul_nonneg (mul_nonneg hx (Int.natCast_nonneg hd.nbands))
      (Int.natCast_nonneg hd.nbytes)
    have h2 := Int.natCast_nonneg hd.hdrlen
    linarith
  have hWt : ((window.W.toNat : Nat) : Int) = window.W := Int.toNat_of_nonneg hw.le
  have hHt : ((window.H.toNat : Nat) : Int) = window.H := Int.toNat_of_nonneg hh.le
  have hfcb : ((hd.hdrlen : Int) + window.X * hd.nbands * hd.nbytes) +
      (hd.nbands : Int) * (((window.W.toNat * hd.nbytes : Nat) : Int) +
        ((hd.ncols : Int) - (window.X + window.W)) * hd.nbytes) =
      ((fullColBytes hd : Nat) : Int) := by
    unfold fullColBytes
    push_cast [hWt]
    ring
  have hfcb0 : (0 : Int) ≤ ((fullColBytes hd : Nat) : Int) := Int.natCast_nonneg _
  have hstart : (0 : Int) ≤ window.Y * ((fullColBytes hd : Nat) : Int) :=
    mul_nonneg hy hfcb0
  have hfit : window.Y * ((fullColBytes hd : Nat) : Int) +
      ((window.H.toNat : Nat) : Int) * ((fullColBytes hd : Nat) : Int) ≤
      (file.length : Int) := by
    rw [hHt]
    have h1 : window.Y * ((fullColBytes hd : Nat) : Int) +
        window.H * ((fullColBytes hd : Nat) : Int) =
        (window.Y + window.H) * ((fullColBytes hd : Nat) : Int) := by ring
    rw [h1]
    have h2 : (window.Y + window.H) * ((fullColBytes hd : Nat) : Int) ≤
        ((totalRows hd file.length : Nat) : Int) * ((fullColBytes hd : Nat) : Int) :=
      mul_le_mul_of_nonneg_right hyh hfcb0
    have h3 : ((totalRows hd file.length : Nat) : Int) * ((fullColBytes hd : Nat) : Int) ≤
        (file.length : Int) := by
      unfold totalRows
      exact_mod_cast Nat.div_mul_le_self file.length (fullColBytes hd)
    linarith
  obtain ⟨rows, hrows, hrl, hrmem⟩ :=
    readRowsLoop_ok file hd.nbands window.W.toNat hd.nbytes
      ((hd.hdrlen : Int) + window.X * hd.nbands * hd.nbytes)
      (((hd.ncols : Int) - (window.X + window.W)) * hd.nbytes)
      ((fullColBytes hd : Nat) : Int) hby htail hco hfcb window.H.toNat
      (window.Y * ((fullColBytes hd : Nat) : Int)) hstart hfit
  have hlenF : (rows.map (transposeRect window.W.toNat)).length = window.H.toNat := by
    simp [hrl]
  have hrowF : ∀ row ∈ rows.map (transposeRect window.W.toNat),
      row.length = window.W.toNat := by
    intro row hrow
    obtain ⟨r, _, rfl⟩ := List.mem_map.1 hrow
    exact transposeRect_length _ _
  have hcellF : ∀ row ∈ rows.map (transposeRect window.W.toNat),
      ∀ cell ∈ row, cell.length = hd.nbands := by
    intro row hrow cell hcell
    obtain ⟨r, hr, rfl⟩ := List.mem_map.1 hrow
    rw [transposeRect_mem _ _ cell hcell]
    exact (hrmem r hr).1
  simp only [read_window, hval, decodeWindow]
  rw [if_neg (by omega : ¬(window.H < 0 ∨ window.W < 0))]
  rw [if_neg (not_lt.mpr hstart)]
  simp only [hrows]
  by_cases hW : window.W = 320
  · rw [if_pos hW]
    refine checkFrameShape_ok _ _ _ _ (by simp [hrl]) ?_ ?_
    · intro row hrow
      obtain ⟨r, hr, rfl⟩ := List.mem_map.1 hrow
      rw [List.length_reverse]
      exact hrowF r hr
    · intro row hrow cell hcell
      obtain ⟨r, hr, rfl⟩ := List.mem_map.1 hrow
      exact hcellF r hr cell (List.mem_reverse.1 hcell)
  · rw [if_neg hW]
    exact checkFrameShape_ok _ _ _ _ hlenF hrowF hcellF

theorem read_window_ok_shape_witness :
    ((0 : Int) + 2 ≤ ((⟨2, 3, 2, 2, 3⟩ : M3Header).ncols : Int)) ∧
    ((1 : Int) + 1 ≤ ((totalRows ⟨2, 3, 2, 2, 3⟩
      ([0, 0, 0, 1, 7, 2, 7, 3, 7, 11, 7, 12, 7, 13, 7,
        0, 0, 0, 101, 7, 102, 7, 103, 7, 111, 7, 112, 7, 113, 7] : Bytes).length : Nat) :
        Int)) ∧
    checkFrameShape
        (read_window
          [0, 0, 0, 1, 7, 2, 7, 3, 7, 11, 7, 12, 7, 13, 7,
            0, 0, 0, 101, 7, 102, 7, 103, 7, 111, 7, 112, 7, 113, 7]
          ⟨2, 3, 2, 2, 3⟩ ⟨0, 1, 2, 1⟩)
        ((1 : Int)).toNat ((2 : Int)).toNat 2 = true :=
  ⟨by decide, by decide,
   read_window_ok_shape
     [0, 0, 0, 1, 7, 2, 7, 3, 7, 11, 7, 12, 7, 13, 7,
       0, 0, 0, 101, 7, 102, 7, 103, 7, 111, 7, 112, 7, 113, 7]
     ⟨2, 3, 2, 2, 3⟩ ⟨0, 1, 2, 1⟩ (by decide) (by decide) (by decide) (by decide)
     (by decide) (by decide) (by decide) (by decide) (by decide) (by decide)⟩

/-! ## Claim C4: the width-320 column mirroring -/

theorem getD_map_reverse (fr : Frame) (r : Nat) :
    (fr.map List.reverse).getD r [] = (fr.getD r []).reverse := by
  simp only [List.getD_eq_getElem?_getD, List.getElem?_map]
  cases fr[r]? <;> simp

theorem decodeWindow_ok_rows (file : Bytes) (hd : M3Header) (window : Window) (fr : Frame)
    (hdec : decodeWindow file hd window = .ok fr) :
    ∀ row ∈ fr, row.length = window.W.toNat := by
  simp only [decodeWindow] at hdec
  split_ifs at hdec
  split at hdec
  · simp at hdec
  · simp only [Except.ok.injEq] at hdec
    subst hdec
    intro row hrow
    obtain ⟨r, _, rfl⟩ := List.mem_map.1 hrow
    exact transposeRect_length _ _

theorem reverse_getD_of_lt {α : Type} (l : List α) (d : α) (c : Nat) (hc : c < l.length) :
    l.reverse.getD c d = l.getD (l.length - 1 - c) d := by
  rw [List.getD_eq_getElem _ _ (by simpa using hc), List.getD_eq_getElem _ _ (by omega)]
  exact List.getElem_reverse _

/-- Claim C4: a decoded window is returned column-reversed exactly when its
width is 320 — element `(r, c, b)` of the returned frame is element
`(r, 319 - c, b)` of the unmirrored decode — and unchanged for every other
width. -/
theorem read_window_mirror (file : Bytes) (hd : M3Header) (window : Window) (fr : Frame)
    (hval : validateWindow window ((totalRows hd file.length : Nat) : Int) hd.ncols = none)
    (hdec : decodeWindow file hd window = .ok fr) :
    (window.W = 320 →
      read_window file hd window = .ok (fr.map List.reverse) ∧
      ∀ r c b, r < fr.length → c < 320 →
        frameGet (fr.map List.reverse) r c b = frameGet fr r (319 - c) b) ∧
    (window.W ≠ 320 → read_window file hd window = .ok fr) := by
  have hrw : read_window file hd window =
      .ok (if window.W = 320 then fr.map List.reverse else fr) := by
    unfold read_window
    rw [hval, hdec]
  constructor
  · intro hW
    refine ⟨by rw [hrw, if_pos hW], ?_⟩
    intro r c b hr hc
    have hrow : (fr.getD r []).length = 320 := by
      have hmem : fr.getD r [] ∈ fr := by
        rw [List.getD_eq_getElem _ _ hr]
        exact List.getElem_mem hr
      rw [decodeWindow_ok_rows file hd window fr hdec _ hmem, hW]
      rfl
    unfold frameGet
    rw [getD_map_reverse,
      reverse_getD_of_lt (fr.getD r []) [] c (by rw [hrow]; exact hc), hrow]
  · intro hW
    rw [hrw, if_neg hW]

theorem read_window_mirror_witness :
    validateWindow ⟨0, 0, 2, 1⟩
        ((totalRows ⟨2, 2, 1, 1, 0⟩ ([10, 11, 20, 21] : Bytes).length : Nat) : Int)
        (⟨2, 2, 1, 1, 0⟩ : M3Header).ncols = none ∧
    decodeWindow [10, 11, 20, 21] ⟨2, 2, 1, 1, 0⟩ ⟨0, 0, 2, 1⟩ =
      .ok [[[[10], [20]], [[11], [21]]]] ∧
    read_window [10, 11, 20, 21] ⟨2, 2, 1, 1, 0⟩ ⟨0, 0, 2, 1⟩ =
      .ok [[[[10], [20]], [[11], [21]]]] :=
  ⟨by decide, by decide,
   (read_window_mirror [10, 11, 20, 21] ⟨2, 2, 1, 1, 0⟩ ⟨0, 0, 2, 1⟩
       [[[[10], [20]], [[11], [21]]]] (by decide) (by decide)).2 (by decide)⟩
